import Mathlib

/-!
cryptopro-exporter: the output-extraction layer and the collection loops.

A shallow embedding of `cpmgr.go` (the three extractors `getVersion`,
`getLicenseInfo`, `GetUserCertsInfo`) and of the collection loops of `main.go`.

Conventions of the embedding.

* A Go `string` holding command output is a list of characters (`Text`); the
  output is taken to be valid UTF-8, so bytes and code points agree on the ASCII
  patterns the program searches for.
* `exec.Cmd.Output` is a value `RunResult`: the captured standard output together
  with the runner's error (`none` for Go's `nil`).
* The regular expressions of the program are all concatenations of single
  character classes, some of them under a greedy `+`, with capture groups around
  runs of neighbouring elements; `matchItems` is a backtracking matcher for such
  patterns with Go's leftmost-first preference.
* Go's `int` is the 64-bit two's-complement integer (`wrapInt64`); a `float64`
  is the exact rational number it stands for, rounding is not modelled.
-/

namespace CryptoproExporter

/-! ## Texts -/

/-- A Go string, as the list of its characters. -/
abbrev Text := List Char

/-- The test `strings.HasPrefix(s, p)`. -/
def startsWith : Text → Text → Bool
  | _, [] => true
  | [], _ :: _ => false
  | c :: cs, p :: ps => c == p && startsWith cs ps

/-- The test `strings.Contains(s, sub)`: `sub` occurs at some position of `s`. -/
def Contains : Text → Text → Bool
  | [], sub => startsWith [] sub
  | c :: cs, sub => startsWith (c :: cs) sub || Contains cs sub

/-- Go's `strings.Replace(s, old, new, -1)` for a non-empty `old`: the occurrences of
`old` are replaced from left to right, without overlap, in one pass.  The counter is
the number of characters of the occurrence just found that are still to be skipped. -/
def replaceFrom (old new : Text) : Nat → Text → Text
  | _, [] => []
  | 0, c :: cs =>
    if startsWith (c :: cs) old then new ++ replaceFrom old new (old.length - 1) cs
    else c :: replaceFrom old new 0 cs
  | k + 1, _ :: cs => replaceFrom old new k cs

/-- The call `strings.Replace(s, old, new, -1)`.  An empty `old` matches before the
first character and after each one. -/
def Replace (s old new : Text) : Text :=
  if old = new then s
  else if old = [] then new ++ s.flatMap (fun c => c :: new)
  else replaceFrom old new 0 s

/-! ## Character classes of Go's `regexp` -/

/-- The class `\d`. -/
def isDigit (c : Char) : Bool := '0' ≤ c && c ≤ '9'

/-- The class `\w`: `[0-9A-Za-z_]`. -/
def isWord (c : Char) : Bool :=
  isDigit c || ('A' ≤ c && c ≤ 'Z') || ('a' ≤ c && c ≤ 'z') || c == '_'

/-- The class `\s`: `[\t\n\f\r ]`. -/
def isSpace (c : Char) : Bool :=
  c == Char.ofNat 9 || c == Char.ofNat 10 || c == Char.ofNat 12 || c == Char.ofNat 13 || c == ' '

/-- The class `.` (without the `s` flag): any character but the line feed. -/
def isAnyChar (c : Char) : Bool := c != Char.ofNat 10

/-! ## Regular expressions -/

/-- One element of a pattern: a character class `cls`, taken once or, when `many` is
set, one or more times (greedy `+`), inside capture group `grp` (0: in no group). -/
structure Item where
  cls : Char → Bool
  many : Bool
  grp : Nat

/-- A class taken once. -/
def one (p : Char → Bool) (g : Nat) : Item := ⟨p, false, g⟩

/-- A class under `+`. -/
def plus (p : Char → Bool) (g : Nat) : Item := ⟨p, true, g⟩

/-- A literal piece of a pattern. -/
def lit (s : Text) (g : Nat) : List Item := s.map (fun x => one (fun c => c == x) g)

/-- The greedy `+`: having taken `acc`, take one more character of the class and then
prefer taking still more over handing the rest to the continuation `k`. -/
def plusLoop (p : Char → Bool) (k : Text → Option (List Text)) : Text → Text → Option (List Text)
  | _, [] => none
  | acc, c :: cs =>
    if p c then
      match plusLoop p k (acc ++ [c]) cs with
      | some r => some r
      | none => (k cs).map (fun r => (acc ++ [c]) :: r)
    else none

/-- Match a pattern at the start of a text.  The result lists, element by element,
the characters each element of the pattern has taken. -/
def matchItems : List Item → Text → Option (List Text)
  | [], _ => some []
  | it :: r, s =>
    if it.many then plusLoop it.cls (matchItems r) [] s
    else
      match s with
      | [] => none
      | c :: cs => if it.cls c then (matchItems r cs).map (fun chs => [c] :: chs) else none

/-- The leftmost match of a pattern in a text. -/
def findFrom (re : List Item) : Text → Option (List Text)
  | [] => matchItems re []
  | c :: cs =>
    match matchItems re (c :: cs) with
    | some r => some r
    | none => findFrom re cs

/-- The text of capture group `g`: what the elements of that group have taken. -/
def groupText : List Item → List Text → Nat → Text
  | it :: r, ch :: chs, g => if it.grp = g then ch ++ groupText r chs g else groupText r chs g
  | _, _, _ => []

/-- The number of capture groups of a pattern. -/
def numGroups (re : List Item) : Nat := (re.map (fun it => it.grp)).foldr max 0

/-- Go's `Regexp.FindStringSubmatch`: `none` for the nil slice when nothing matches,
otherwise the text of the leftmost match followed by the texts of its groups. -/
def FindStringSubmatch (re : List Item) (s : Text) : Option (List Text) :=
  (findFrom re s).map
    (fun chs => chs.flatten :: (List.range (numGroups re)).map (fun g => groupText re chs (g + 1)))

/-- The pattern of `getVersion`, with the unescaped `.` of the source between the digits. -/
def versionRe : List Item :=
  lit "CryptCP".toList 0 ++
    [plus isSpace 0, plus isDigit 1, one isAnyChar 1, plus isDigit 1, plus isSpace 0]

/-- The pattern of the month form of the expiry clause. -/
def monthRe : List Item :=
  lit "Expires: ".toList 0 ++ [plus isDigit 1] ++ lit " month ".toList 0 ++ [plus isDigit 2] ++
    lit " day".toList 0

/-- The pattern of the day-only form of the expiry clause. -/
def dayRe : List Item :=
  lit "Expires: ".toList 0 ++ [plus isDigit 1] ++ lit " day".toList 0

/-- The pattern of a container name: `HDIMAGE`, two backslashes, the name, `.000`. -/
def containerRe : List Item :=
  lit "HDIMAGE".toList 0 ++ lit [Char.ofNat 92, Char.ofNat 92] 0 ++ [plus isWord 1] ++
    lit ".000".toList 0

/-- The pattern of an expiry date. -/
def dateRe : List Item :=
  lit "Not valid after".toList 0 ++ [plus isSpace 0] ++ lit ":".toList 0 ++ [plus isSpace 0] ++
    [one isDigit 1, one isDigit 1] ++ lit "/".toList 1 ++ [one isDigit 1, one isDigit 1] ++
    lit "/".toList 1 ++ [one isDigit 1, one isDigit 1, one isDigit 1, one isDigit 1] ++
    [plus isSpace 0]

/-! ## `strconv` -/

/-- The value of a run of decimal digits. -/
def digitsVal (ds : Text) : Nat := ds.foldl (fun n c => 10 * n + (c.toNat - 48)) 0

/-- Go's `int` on the 64-bit platforms the exporter is built for: arithmetic wraps. -/
def wrapInt64 (x : Int) : Int := (x + 2 ^ 63) % 2 ^ 64 - 2 ^ 63

/-- Go's `strconv.Atoi`: an optional sign and decimal digits, no underscores; `none`
stands for the error (bad syntax, or a value outside the 64-bit `int`). -/
def Atoi (s : Text) : Option Int :=
  let neg := startsWith s ['-']
  let ds := if startsWith s ['-'] || startsWith s ['+'] then s.drop 1 else s
  if ds = [] ∨ ds.all isDigit = false then none
  else if neg then (if digitsVal ds ≤ 2 ^ 63 then some (-(digitsVal ds : Int)) else none)
  else if digitsVal ds < 2 ^ 63 then some (digitsVal ds : Int)
  else none

/-- The two errors of `strconv`. -/
inductive NumError
  | malformed
  | outOfRange
deriving DecidableEq, Repr

/-- What `readFloat` has seen of a decimal mantissa: the value of its digits, the number
of digits after the point, and the flags of the Go function. -/
structure Mantissa where
  digits : Nat
  frac : Nat
  sawdot : Bool
  sawdigits : Bool
  underscores : Bool

/-- The mantissa loop of `readFloat` in base 10; returns what is left of the text. -/
def readMantissa : Text → Mantissa → Mantissa × Text
  | [], m => (m, [])
  | c :: cs, m =>
    if c = '_' then readMantissa cs { m with underscores := true }
    else if c = '.' then
      if m.sawdot then (m, c :: cs) else readMantissa cs { m with sawdot := true }
    else if isDigit c then
      readMantissa cs
        { m with digits := 10 * m.digits + (c.toNat - 48),
                 frac := if m.sawdot then m.frac + 1 else m.frac,
                 sawdigits := true }
    else (m, c :: cs)

/-- The digits of an exponent; as in Go the value stops growing at 10000. -/
def readExpDigits : Text → Nat → Bool → Nat × Bool × Text
  | [], e, u => (e, u, [])
  | c :: cs, e, u =>
    if c = '_' then readExpDigits cs e true
    else if isDigit c then readExpDigits cs (if e < 10000 then e * 10 + (c.toNat - 48) else e) u
    else (e, u, c :: cs)

/-- The optional exponent of `readFloat`: the exponent, whether an underscore was seen,
and the rest of the text; `none` when an `e` is not followed by a signed number. -/
def readExponent : Text → Option (Int × Bool × Text)
  | [] => some (0, false, [])
  | c :: cs =>
    if c = 'e' ∨ c = 'E' then
      let neg := startsWith cs ['-']
      let ds := if startsWith cs ['-'] || startsWith cs ['+'] then cs.drop 1 else cs
      match ds with
      | [] => none
      | d :: _ =>
        if isDigit d then
          let r := readExpDigits ds 0 false
          some (if neg then -(r.1 : Int) else (r.1 : Int), r.2.1, r.2.2)
        else none
    else some (0, false, c :: cs)

/-- The scan of `underscoreOK`; `saw` is the last kind of character seen. -/
def underscoreOKFrom (hex : Bool) : Text → Char → Bool
  | [], saw => saw != '_'
  | c :: cs, saw =>
    if isDigit c || (hex && (('a' ≤ c && c ≤ 'f') || ('A' ≤ c && c ≤ 'F'))) then
      underscoreOKFrom hex cs '0'
    else if c = '_' then
      if saw != '0' then false else underscoreOKFrom hex cs '_'
    else if saw = '_' then false
    else underscoreOKFrom hex cs '!'

/-- Go's `underscoreOK`: an underscore stands only between digits, or between a base
marker and a digit. -/
def underscoreOK (s : Text) : Bool :=
  let t := if startsWith s ['-'] || startsWith s ['+'] then s.drop 1 else s
  match t with
  | '0' :: x :: r =>
    if x = 'b' ∨ x = 'B' ∨ x = 'o' ∨ x = 'O' ∨ x = 'x' ∨ x = 'X' then
      underscoreOKFrom (x = 'x' ∨ x = 'X') r '0'
    else underscoreOKFrom false t '^'
  | _ => underscoreOKFrom false t '^'

/-- From this size on a real number rounds to an infinite `float64`. -/
def float64Overflow : ℚ := 2 ^ 1024 - 2 ^ 970

/-- Go's `readFloat` on a decimal number: sign, digits with at most one point, optional
exponent.  It returns the sign, the value of the digits, the power of ten that scales
them and the rest of the text; `none` when the text does not start with a number. -/
def readFloat (s : Text) : Option (Bool × Nat × Int × Text) :=
  let neg := startsWith s ['-']
  let t := if startsWith s ['-'] || startsWith s ['+'] then s.drop 1 else s
  let m := readMantissa t ⟨0, 0, false, false, false⟩
  if m.1.sawdigits = false then none
  else
    match readExponent m.2 with
    | none => none
    | some (e, u, rest) =>
      if (m.1.underscores || u) && !underscoreOK (s.take (s.length - rest.length)) then none
      else some (neg, m.1.digits, e - (m.1.frac : Int), rest)

/-- Go's `strconv.ParseFloat(s, 64)` on decimal numbers.  The result is the exact value
of the text, which Go rounds to the nearest `float64`.  Hexadecimal numbers with a `p`
exponent and the words for infinities and NaN, which Go also accepts, are rejected
here. -/
def ParseFloat (s : Text) : Except NumError ℚ :=
  match readFloat s with
  | none => .error .malformed
  | some (neg, mant, exp, rest) =>
    if rest ≠ [] then .error .malformed
    else if float64Overflow ≤ (mant : ℚ) * 10 ^ exp then .error .outOfRange
    else if neg then .ok (-((mant : ℚ) * 10 ^ exp))
    else .ok ((mant : ℚ) * 10 ^ exp)

/-! ## The extractors of `cpmgr.go` -/

/-- The errors the extractors return. -/
inductive GoError
  | runner (msg : String)
  | versionNotFound (out : Text)
  | versionNotExtracted (e : NumError)
  | expiryNotFound
  | expiryNotProcessed
  | containersNotFound
  | validDateNotFound
deriving DecidableEq, Repr

/-- The result of `exec.Cmd.Output`: the captured standard output and the error of the
run (`none` when the command ran and exited with status 0). -/
structure RunResult where
  out : Text
  err : Option GoError

/-- The method `getVersion`; `run` is what `c.Output()` returned.  The error of the run
is stored in `err` and overwritten before it is ever read. -/
def getVersion (run : RunResult) : ℚ × Option GoError :=
  match FindStringSubmatch versionRe run.out with
  | none => (0, some (.versionNotFound run.out))
  | some ms =>
    if ms.length < 2 ∨ ms.getD 1 [] = [] then (0, some (.versionNotFound run.out))
    else
      match ParseFloat (ms.getD 1 []) with
      | .error e => (0, some (.versionNotExtracted e))
      | .ok version => (version, none)

/-- The four results of `getLicenseInfo`. -/
structure LicenseInfo where
  isPermanent : Bool
  isActive : Bool
  expiresIn : Int
  err : Option GoError
deriving DecidableEq, Repr

/-- The method `getLicenseInfo`; `run` is what `c.Output()` returned. -/
def getLicenseInfo (run : RunResult) : LicenseInfo :=
  match run.err with
  | some e => ⟨false, false, 0, some e⟩
  | none =>
    let s := run.out
    let isActive := !Contains s "expired".toList
    let isPermanent := Contains s "permanent".toList
    if !isActive then ⟨isPermanent, isActive, 0, none⟩
    else if isPermanent then ⟨isPermanent, isActive, 9999999, none⟩
    else
      let hasMonth := Contains s "month".toList
      let s := Replace s "(s)".toList []
      if hasMonth then
        match FindStringSubmatch monthRe s with
        | none => ⟨false, false, 0, some .expiryNotFound⟩
        | some ms =>
          match Atoi (ms.getD 1 []) with
          | none => ⟨false, false, 0, some .expiryNotProcessed⟩
          | some i1 =>
            match Atoi (ms.getD 2 []) with
            | none => ⟨false, false, 0, some .expiryNotProcessed⟩
            | some i2 => ⟨isPermanent, isActive, wrapInt64 (wrapInt64 (i1 * 30) + i2), none⟩
      else
        match FindStringSubmatch dayRe s with
        | none => ⟨false, false, 0, some .expiryNotProcessed⟩
        | some ms =>
          match Atoi (ms.getD 1 []) with
          | none => ⟨false, false, 0, some .expiryNotProcessed⟩
          | some i1 => ⟨isPermanent, isActive, i1, none⟩

/-- The three results of `GetUserCertsInfo`. -/
structure CertsInfo where
  containerNames : List Text
  expireIn : List ℚ
  err : Option GoError
deriving DecidableEq

/-- The method `GetUserCertsInfo`; `run` is what `c.Output()` returned.  The helper
`diffDaysFromNow` is not among the source files and is a parameter. -/
def GetUserCertsInfo (diffDaysFromNow : Text → ℚ) (run : RunResult) : CertsInfo :=
  match run.err with
  | some e => ⟨[], [], some e⟩
  | none =>
    match FindStringSubmatch containerRe run.out with
    | none => ⟨[], [], some .containersNotFound⟩
    | some ms1 =>
      if ms1.length < 2 ∨ ms1.getD 1 [] = [] then ⟨[], [], some .containersNotFound⟩
      else
        match FindStringSubmatch dateRe run.out with
        | none => ⟨ms1.drop 1, [], some .validDateNotFound⟩
        | some ms2 =>
          if ms2.length < 2 ∨ ms2.getD 1 [] = [] then ⟨ms1.drop 1, [], some .validDateNotFound⟩
          else ⟨ms1.drop 1, (ms2.drop 1).map diffDaysFromNow, none⟩

/-! ## The collection loops of `main.go` -/

/-- The gauges and counters registered by `main`. -/
structure Metrics where
  cryptoVersion : ℚ
  licenseActive : ℚ
  licensePermanent : ℚ
  licenseExpiresIn : ℚ
  userCertificateExpiresIn : List (Text × ℚ)
  errorsTotal : Nat
  errorsLicense : Nat
  errorsUserCertificates : Nat
  errorsVersion : Nat
deriving DecidableEq

/-- One pass through the body of the license loop.  The helper `boolToFloat64` is not
among the source files and is a parameter. -/
def licenseCycle (boolToFloat64 : Bool → ℚ) (run : RunResult) (m : Metrics) : Metrics :=
  let m := { m with licensePermanent := 0, licenseActive := 0, licenseExpiresIn := 0 }
  let r := getLicenseInfo run
  match r.err with
  | some _ => { m with errorsVersion := m.errorsVersion + 1, errorsTotal := m.errorsTotal + 1 }
  | none =>
    { m with licensePermanent := boolToFloat64 r.isPermanent,
             licenseActive := boolToFloat64 r.isActive,
             licenseExpiresIn := (r.expiresIn : ℚ) }

/-- One pass through the body of the version loop. -/
def versionCycle (run : RunResult) (m : Metrics) : Metrics :=
  let m := { m with cryptoVersion := 0 }
  let r := getVersion run
  match r.2 with
  | some _ => { m with errorsVersion := m.errorsVersion + 1, errorsTotal := m.errorsTotal + 1 }
  | none => { m with cryptoVersion := r.1 }

/-- The call `WithLabelValues(n).Set(v)` on a gauge vector. -/
def setLabel (vec : List (Text × ℚ)) (n : Text) (v : ℚ) : List (Text × ℚ) :=
  if vec.any (fun e => e.1 = n) then vec.map (fun e => if e.1 = n then (n, v) else e)
  else vec ++ [(n, v)]

/-- The publishing loop `for i, n := range certNames`, from index `i` on; `none` is
the run-time panic of an index outside `expireIn`. -/
def publishCerts (expireIn : List ℚ) : Nat → List Text → List (Text × ℚ) → Option (List (Text × ℚ))
  | _, [], vec => some vec
  | i, n :: ns, vec =>
    match expireIn.get? i with
    | none => none
    | some v => publishCerts expireIn (i + 1) ns (setLabel vec n v)

/-- One pass through the body of the user-certificates loop; `none` when it panics. -/
def certsCycle (diffDaysFromNow : Text → ℚ) (run : RunResult) (m : Metrics) : Option Metrics :=
  let m := { m with userCertificateExpiresIn := [] }
  let r := GetUserCertsInfo diffDaysFromNow run
  let m :=
    match r.err with
    | some _ =>
      { m with errorsTotal := m.errorsTotal + 1,
               errorsUserCertificates := m.errorsUserCertificates + 1 }
    | none => m
  (publishCerts r.expireIn 0 r.containerNames m.userCertificateExpiresIn).map
    (fun vec => { m with userCertificateExpiresIn := vec })

/-! ## Vocabulary of the statements -/

/-- A non-empty run of decimal digits: what `\d+` describes. -/
def IsDigits (ds : Text) : Prop := ds ≠ [] ∧ ∀ c ∈ ds, isDigit c = true

/-- A non-empty run of white space: what `\s+` describes. -/
def IsSpaces (ws : Text) : Prop := ws ≠ [] ∧ ∀ c ∈ ws, isSpace c = true

/-- The text `Expires: n month m day`. -/
def monthClause (n m : Text) : Text :=
  "Expires: ".toList ++ n ++ " month ".toList ++ m ++ " day".toList

/-- The text `Expires: n day`. -/
def dayClause (n : Text) : Text := "Expires: ".toList ++ n ++ " day".toList

/-- The text begins with a month-form expiry clause, the language of `monthRe`. -/
def MonthClauseAt (t : Text) : Prop := ∃ n m, IsDigits n ∧ IsDigits m ∧ monthClause n m <+: t

/-- The text begins with a day-only expiry clause, the language of `dayRe`. -/
def DayClauseAt (t : Text) : Prop := ∃ n, IsDigits n ∧ dayClause n <+: t

/-- The number written `a.b` in decimal notation. -/
def decimalValue (a b : Text) : ℚ := (digitsVal a : ℚ) + (digitsVal b : ℚ) / 10 ^ b.length

/-! ## Texts: the tests against Mathlib's list relations -/

theorem startsWith_iff (s p : Text) : startsWith s p = true ↔ p <+: s := by
  induction p generalizing s with
  | nil => simp [startsWith]
  | cons x xs ih =>
    cases s with
    | nil => simp [startsWith]
    | cons c cs =>
      simp only [startsWith, Bool.and_eq_true, beq_iff_eq, ih, List.cons_prefix_cons]
      constructor
      · rintro ⟨h1, h2⟩
        exact ⟨h1.symm, h2⟩
      · rintro ⟨h1, h2⟩
        exact ⟨h1.symm, h2⟩

theorem Contains_iff (s sub : Text) : Contains s sub = true ↔ sub <:+: s := by
  induction s with
  | nil =>
    simp only [Contains, startsWith_iff, List.prefix_nil, List.infix_nil]
  | cons c cs ih =>
    simp only [Contains, Bool.or_eq_true, startsWith_iff, ih, List.infix_cons_iff]

theorem Contains_eq_false (s sub : Text) (h : ¬ sub <:+: s) : Contains s sub = false := by
  rw [← Bool.not_eq_true, Contains_iff]
  exact h

/-! ## The matcher -/

theorem plusLoop_some (p : Char → Bool) (k : Text → Option (List Text)) (s acc : Text)
    (r : List Text) (h : plusLoop p k acc s = some r) :
    ∃ ds rest chs, ds ≠ [] ∧ (∀ c ∈ ds, p c = true) ∧ s = ds ++ rest ∧ k rest = some chs ∧
      r = (acc ++ ds) :: chs := by
  induction s generalizing acc r with
  | nil => simp [plusLoop] at h
  | cons c cs ih =>
    rw [plusLoop] at h
    by_cases hp : p c = true
    · rw [if_pos hp] at h
      cases hrec : plusLoop p k (acc ++ [c]) cs with
      | some r1 =>
        rw [hrec] at h
        obtain ⟨ds, rest, chs, h1, h2, h3, h4, h5⟩ := ih (acc ++ [c]) r1 hrec
        refine ⟨c :: ds, rest, chs, by simp, ?_, by simp [h3], h4, ?_⟩
        · intro x hx
          rcases List.mem_cons.1 hx with hx | hx
          · rw [hx]; exact hp
          · exact h2 x hx
        · simp only [Option.some.injEq] at h
          rw [← h, h5]
          simp
      | none =>
        rw [hrec] at h
        cases hk : k cs with
        | none => rw [hk] at h; simp at h
        | some chs =>
          rw [hk] at h
          simp only [Option.map_some', Option.some.injEq] at h
          exact ⟨[c], cs, chs, by simp, by simpa using hp, by simp, hk, h.symm⟩
    · rw [if_neg hp] at h
      simp at h

theorem plusLoop_none_of_head (p : Char → Bool) (k : Text → Option (List Text)) (acc rest : Text)
    (h : ∀ c ∈ rest.head?, p c = false) : plusLoop p k acc rest = none := by
  cases rest with
  | nil => simp [plusLoop]
  | cons c cs =>
    have hc : p c = false := h c (by simp)
    simp [plusLoop, hc]

theorem plusLoop_greedy (p : Char → Bool) (k : Text → Option (List Text)) (ds rest acc : Text)
    (chs : List Text) (hne : ds ≠ []) (hds : ∀ c ∈ ds, p c = true)
    (hrest : ∀ c ∈ rest.head?, p c = false) (hk : k rest = some chs) :
    plusLoop p k acc (ds ++ rest) = some ((acc ++ ds) :: chs) := by
  induction ds generalizing acc with
  | nil => exact absurd rfl hne
  | cons d ds ih =>
    have hd : p d = true := hds d (by simp)
    rw [List.cons_append, plusLoop, if_pos hd]
    by_cases hnil : ds = []
    · subst hnil
      rw [List.nil_append, plusLoop_none_of_head p k _ rest hrest, hk]
      simp
    · rw [ih (acc ++ [d]) hnil (fun c hc => hds c (List.mem_cons_of_mem _ hc))]
      simp

theorem matchItems_plus (p : Char → Bool) (g : Nat) (r : List Item) (s : Text) :
    matchItems (plus p g :: r) s = plusLoop p (matchItems r) [] s := by
  simp [matchItems, plus]

theorem matchItems_one_cons (p : Char → Bool) (g : Nat) (r : List Item) (c : Char) (cs : Text) :
    matchItems (one p g :: r) (c :: cs) =
      if p c = true then (matchItems r cs).map (fun chs => [c] :: chs) else none := by
  simp [matchItems, one]

theorem matchItems_plus_some (p : Char → Bool) (g : Nat) (r : List Item) (s : Text)
    (chunks : List Text) (h : matchItems (plus p g :: r) s = some chunks) :
    ∃ ds rest chs, ds ≠ [] ∧ (∀ c ∈ ds, p c = true) ∧ s = ds ++ rest ∧
      matchItems r rest = some chs ∧ chunks = ds :: chs := by
  rw [matchItems_plus] at h
  obtain ⟨ds, rest, chs, h1, h2, h3, h4, h5⟩ := plusLoop_some p _ s [] chunks h
  exact ⟨ds, rest, chs, h1, h2, h3, h4, by simpa using h5⟩

theorem matchItems_plus_greedy (p : Char → Bool) (g : Nat) (r : List Item) (ds rest : Text)
    (chs : List Text) (hne : ds ≠ []) (hds : ∀ c ∈ ds, p c = true)
    (hrest : ∀ c ∈ rest.head?, p c = false) (hk : matchItems r rest = some chs) :
    matchItems (plus p g :: r) (ds ++ rest) = some (ds :: chs) := by
  rw [matchItems_plus, plusLoop_greedy p _ ds rest [] chs hne hds hrest hk]
  simp

theorem matchItems_lit (l : Text) (g : Nat) (r : List Item) (s : Text) :
    matchItems (lit l g ++ r) (l ++ s) =
      (matchItems r s).map (fun chs => l.map (fun c => [c]) ++ chs) := by
  induction l with
  | nil => simp [lit]
  | cons x xs ih =>
    have hx : lit (x :: xs) g = one (fun c => c == x) g :: lit xs g := rfl
    rw [hx, List.cons_append, List.cons_append, matchItems_one_cons]
    simp only [beq_self_eq_true, if_true, ih, Option.map_map]
    rfl

theorem matchItems_lit_some (l : Text) (g : Nat) (r : List Item) (s : Text) (chunks : List Text)
    (h : matchItems (lit l g ++ r) s = some chunks) :
    ∃ rest chs, s = l ++ rest ∧ matchItems r rest = some chs ∧
      chunks = l.map (fun c => [c]) ++ chs := by
  induction l generalizing s chunks with
  | nil => exact ⟨s, chunks, by simp, by simpa [lit] using h, by simp⟩
  | cons x xs ih =>
    have hx : lit (x :: xs) g = one (fun c => c == x) g :: lit xs g := rfl
    rw [hx, List.cons_append] at h
    cases s with
    | nil => simp [matchItems, one] at h
    | cons c cs =>
      rw [matchItems_one_cons] at h
      by_cases hc : c = x
      · subst hc
        simp only [beq_self_eq_true, if_true] at h
        cases hrec : matchItems (lit xs g ++ r) cs with
        | none => rw [hrec] at h; simp at h
        | some chs1 =>
          rw [hrec] at h
          obtain ⟨rest, chs, h1, h2, h3⟩ := ih cs chs1 hrec
          refine ⟨rest, chs, by simp [h1], h2, ?_⟩
          simp only [Option.map_some', Option.some.injEq] at h
          rw [← h, h3]
          simp
      · have : (c == x) = false := by simpa using hc
        simp [this] at h

/-! ## The leftmost match -/

theorem findFrom_of_match (re : List Item) (t : Text) (r : List Text)
    (h : matchItems re t = some r) : findFrom re t = some r := by
  cases t with
  | nil => simpa [findFrom] using h
  | cons c cs => simp [findFrom, h]

theorem findFrom_skip (re : List Item) (pre t : Text)
    (h : ∀ i, i < pre.length → matchItems re ((pre ++ t).drop i) = none) :
    findFrom re (pre ++ t) = findFrom re t := by
  induction pre with
  | nil => simp
  | cons c cs ih =>
    have h0 : matchItems re (c :: (cs ++ t)) = none := by simpa using h 0 (by simp)
    rw [List.cons_append, findFrom, h0]
    apply ih
    intro i hi
    simpa using h (i + 1) (by simpa using hi)

theorem findFrom_some (re : List Item) (s : Text) (r : List Text) (h : findFrom re s = some r) :
    ∃ i, i ≤ s.length ∧ matchItems re (s.drop i) = some r := by
  induction s with
  | nil => exact ⟨0, by simp, by simpa [findFrom] using h⟩
  | cons c cs ih =>
    rw [findFrom] at h
    cases hm : matchItems re (c :: cs) with
    | some r1 =>
      rw [hm] at h
      exact ⟨0, by simp, by simpa [hm] using h⟩
    | none =>
      rw [hm] at h
      obtain ⟨i, hi, h2⟩ := ih h
      exact ⟨i + 1, by simpa using hi, by simpa using h2⟩

theorem findFrom_none (re : List Item) (s : Text)
    (h : ∀ i, i ≤ s.length → matchItems re (s.drop i) = none) : findFrom re s = none := by
  cases hf : findFrom re s with
  | none => rfl
  | some r =>
    obtain ⟨i, hi, h2⟩ := findFrom_some re s r hf
    rw [h i hi] at h2
    cases h2

theorem findFrom_isSome_of_match_at (re : List Item) (a t : Text) (r : List Text)
    (h : matchItems re t = some r) : (findFrom re (a ++ t)).isSome = true := by
  induction a with
  | nil => simp [findFrom_of_match re t r h]
  | cons c cs ih =>
    rw [List.cons_append, findFrom]
    cases hm : matchItems re (c :: (cs ++ t)) with
    | some r1 => rfl
    | none => exact ih

/-! ## The expiry clauses -/

theorem not_isDigit_head (rest : Text) (c0 : Char) (h0 : isDigit c0 = false)
    (h : rest.head? = some c0) : ∀ c ∈ rest.head?, isDigit c = false := by
  intro c hc
  rw [h] at hc
  simp only [Option.mem_def, Option.some.injEq] at hc
  rw [← hc]
  exact h0

theorem groupText_lit (l : Text) (g g1 : Nat) (r : List Item) (chs : List Text) :
    groupText (lit l g ++ r) (l.map (fun c => [c]) ++ chs) g1 =
      (if g = g1 then l else []) ++ groupText r chs g1 := by
  induction l with
  | nil => simp [lit]
  | cons x xs ih =>
    have hx : lit (x :: xs) g = one (fun c => c == x) g :: lit xs g := rfl
    rw [hx, List.map_cons, List.cons_append, List.cons_append, groupText, ih]
    by_cases hg : g = g1 <;> simp [one, hg]

theorem groupText_plus (p : Char → Bool) (g g1 : Nat) (r : List Item) (ds : Text)
    (chs : List Text) :
    groupText (plus p g :: r) (ds :: chs) g1 =
      (if g = g1 then ds else []) ++ groupText r chs g1 := by
  rw [groupText]
  by_cases hg : g = g1 <;> simp [plus, hg]

theorem flatten_lit_chunks (l : Text) (chs : List Text) :
    (l.map (fun c => [c]) ++ chs).flatten = l ++ chs.flatten := by
  induction l with
  | nil => simp
  | cons x xs ih => simp [ih]

theorem matchItems_monthRe_clause (n m post : Text) (hn : IsDigits n) (hm : IsDigits m) :
    matchItems monthRe (monthClause n m ++ post) =
      some ("Expires: ".toList.map (fun c => [c]) ++ n ::
        (" month ".toList.map (fun c => [c]) ++ m :: (" day".toList.map (fun c => [c]) ++ []))) := by
  have h3 : matchItems (lit " day".toList 0 ++ []) (" day".toList ++ post) =
      some (" day".toList.map (fun c => [c]) ++ []) := by
    rw [matchItems_lit]; rfl
  have h2 : matchItems (plus isDigit 2 :: (lit " day".toList 0 ++ []))
      (m ++ (" day".toList ++ post)) = some (m :: (" day".toList.map (fun c => [c]) ++ [])) :=
    matchItems_plus_greedy isDigit 2 _ m _ _ hm.1 hm.2
      (not_isDigit_head _ ' ' (by decide) rfl) h3
  have h1 : matchItems (plus isDigit 1 :: (lit " month ".toList 0 ++
      (plus isDigit 2 :: (lit " day".toList 0 ++ []))))
      (n ++ (" month ".toList ++ (m ++ (" day".toList ++ post)))) =
      some (n :: (" month ".toList.map (fun c => [c]) ++ m ::
        (" day".toList.map (fun c => [c]) ++ []))) := by
    refine matchItems_plus_greedy isDigit 1 _ n _ _ hn.1 hn.2
      (not_isDigit_head _ ' ' (by decide) rfl) ?_
    rw [matchItems_lit, h2]; rfl
  have hre : monthRe = lit "Expires: ".toList 0 ++ (plus isDigit 1 :: (lit " month ".toList 0 ++
      (plus isDigit 2 :: (lit " day".toList 0 ++ [])))) := by
    simp [monthRe]
  have htx : monthClause n m ++ post =
      "Expires: ".toList ++ (n ++ (" month ".toList ++ (m ++ (" day".toList ++ post)))) := by
    simp [monthClause]
  rw [hre, htx, matchItems_lit, h1]; rfl

theorem monthClauseAt_of_match (t : Text) (chunks : List Text)
    (h : matchItems monthRe t = some chunks) : MonthClauseAt t := by
  have hre : monthRe = lit "Expires: ".toList 0 ++ (plus isDigit 1 :: (lit " month ".toList 0 ++
      (plus isDigit 2 :: (lit " day".toList 0 ++ [])))) := by
    simp [monthRe]
  rw [hre] at h
  obtain ⟨r1, c1, e1, h1, -⟩ := matchItems_lit_some _ _ _ _ _ h
  obtain ⟨n, r2, c2, hn1, hn2, e2, h2, -⟩ := matchItems_plus_some _ _ _ _ _ h1
  obtain ⟨r3, c3, e3, h3, -⟩ := matchItems_lit_some _ _ _ _ _ h2
  obtain ⟨m, r4, c4, hm1, hm2, e4, h4, -⟩ := matchItems_plus_some _ _ _ _ _ h3
  obtain ⟨r5, c5, e5, -, -⟩ := matchItems_lit_some _ _ _ _ _ h4
  refine ⟨n, m, ⟨hn1, hn2⟩, ⟨hm1, hm2⟩, r5, ?_⟩
  rw [e1, e2, e3, e4, e5]
  simp [monthClause]

theorem FindStringSubmatch_monthRe (pre post n m : Text) (hn : IsDigits n) (hm : IsDigits m)
    (hleft : ∀ i, i < pre.length → ¬ MonthClauseAt ((pre ++ monthClause n m ++ post).drop i)) :
    FindStringSubmatch monthRe (pre ++ monthClause n m ++ post) =
      some [monthClause n m, n, m] := by
  have hskip : findFrom monthRe (pre ++ (monthClause n m ++ post)) =
      findFrom monthRe (monthClause n m ++ post) := by
    apply findFrom_skip
    intro i hi
    cases hmt : matchItems monthRe ((pre ++ (monthClause n m ++ post)).drop i) with
    | none => rfl
    | some chunks =>
      exfalso
      apply hleft i hi
      rw [List.append_assoc]
      exact monthClauseAt_of_match _ chunks hmt
  have hng : numGroups monthRe = 2 := by decide
  have hre : monthRe = lit "Expires: ".toList 0 ++ (plus isDigit 1 :: (lit " month ".toList 0 ++
      (plus isDigit 2 :: (lit " day".toList 0 ++ [])))) := by
    simp [monthRe]
  rw [FindStringSubmatch, List.append_assoc, hskip,
    findFrom_of_match _ _ _ (matchItems_monthRe_clause n m post hn hm), hng]
  simp only [Option.map_some', List.range_succ, List.range_zero, List.nil_append,
    List.singleton_append, List.map_cons, List.map_nil, Nat.zero_add, Nat.reduceAdd]
  rw [hre]
  simp only [groupText_lit, groupText_plus, flatten_lit_chunks, List.flatten_cons]
  simp [monthClause, groupText]

theorem matchItems_dayRe_clause (n post : Text) (hn : IsDigits n) :
    matchItems dayRe (dayClause n ++ post) =
      some ("Expires: ".toList.map (fun c => [c]) ++ n ::
        (" day".toList.map (fun c => [c]) ++ [])) := by
  have h2 : matchItems (lit " day".toList 0 ++ []) (" day".toList ++ post) =
      some (" day".toList.map (fun c => [c]) ++ []) := by
    rw [matchItems_lit]; rfl
  have h1 : matchItems (plus isDigit 1 :: (lit " day".toList 0 ++ []))
      (n ++ (" day".toList ++ post)) = some (n :: (" day".toList.map (fun c => [c]) ++ [])) :=
    matchItems_plus_greedy isDigit 1 _ n _ _ hn.1 hn.2
      (not_isDigit_head _ ' ' (by decide) rfl) h2
  have hre : dayRe = lit "Expires: ".toList 0 ++ (plus isDigit 1 :: (lit " day".toList 0 ++ [])) := by
    simp [dayRe]
  have htx : dayClause n ++ post = "Expires: ".toList ++ (n ++ (" day".toList ++ post)) := by
    simp [dayClause]
  rw [hre, htx, matchItems_lit, h1]; rfl

theorem dayClauseAt_of_match (t : Text) (chunks : List Text)
    (h : matchItems dayRe t = some chunks) : DayClauseAt t := by
  have hre : dayRe = lit "Expires: ".toList 0 ++ (plus isDigit 1 :: (lit " day".toList 0 ++ [])) := by
    simp [dayRe]
  rw [hre] at h
  obtain ⟨r1, c1, e1, h1, -⟩ := matchItems_lit_some _ _ _ _ _ h
  obtain ⟨n, r2, c2, hn1, hn2, e2, h2, -⟩ := matchItems_plus_some _ _ _ _ _ h1
  obtain ⟨r3, c3, e3, -, -⟩ := matchItems_lit_some _ _ _ _ _ h2
  refine ⟨n, ⟨hn1, hn2⟩, r3, ?_⟩
  rw [e1, e2, e3]
  simp [dayClause]

theorem FindStringSubmatch_dayRe (pre post n : Text) (hn : IsDigits n)
    (hleft : ∀ i, i < pre.length → ¬ DayClauseAt ((pre ++ dayClause n ++ post).drop i)) :
    FindStringSubmatch dayRe (pre ++ dayClause n ++ post) = some [dayClause n, n] := by
  have hskip : findFrom dayRe (pre ++ (dayClause n ++ post)) =
      findFrom dayRe (dayClause n ++ post) := by
    apply findFrom_skip
    intro i hi
    cases hmt : matchItems dayRe ((pre ++ (dayClause n ++ post)).drop i) with
    | none => rfl
    | some chunks =>
      exfalso
      apply hleft i hi
      rw [List.append_assoc]
      exact dayClauseAt_of_match _ chunks hmt
  have hng : numGroups dayRe = 1 := by decide
  have hre : dayRe = lit "Expires: ".toList 0 ++ (plus isDigit 1 :: (lit " day".toList 0 ++ [])) := by
    simp [dayRe]
  rw [FindStringSubmatch, List.append_assoc, hskip,
    findFrom_of_match _ _ _ (matchItems_dayRe_clause n post hn), hng]
  simp only [Option.map_some', List.range_succ, List.range_zero, List.nil_append,
    List.map_cons, List.map_nil, Nat.zero_add]
  rw [hre]
  simp only [groupText_lit, groupText_plus, flatten_lit_chunks, List.flatten_cons]
  simp [dayClause, groupText]

theorem FindStringSubmatch_none (re : List Item) (s : Text)
    (h : ∀ i, i ≤ s.length → matchItems re (s.drop i) = none) :
    FindStringSubmatch re s = none := by
  rw [FindStringSubmatch, findFrom_none re s h]
  rfl

theorem infix_of_drop (l s : Text) (i : Nat) (h : l <+: s.drop i) : l <:+: s :=
  List.IsInfix.trans h.isInfix (List.drop_suffix i s).isInfix

/-! ## `strconv.Atoi` on a run of digits -/

theorem startsWith_digits_false (ds : Text) (x : Char) (hd : IsDigits ds)
    (hx : isDigit x = false) : startsWith ds [x] = false := by
  obtain ⟨hne, hall⟩ := hd
  cases ds with
  | nil => exact absurd rfl hne
  | cons c cs =>
    have hc : isDigit c = true := hall c (by simp)
    have : c ≠ x := by
      intro h
      rw [h, hx] at hc
      cases hc
    simp [startsWith, this]

theorem Atoi_digits (ds : Text) (hd : IsDigits ds) (hr : digitsVal ds < 2 ^ 63) :
    Atoi ds = some (digitsVal ds : Int) := by
  have h1 := startsWith_digits_false ds '-' hd (by decide)
  have h2 := startsWith_digits_false ds '+' hd (by decide)
  have h3 : ds.all isDigit = true := List.all_eq_true.2 hd.2
  have hr1 : digitsVal ds < 9223372036854775808 := by simpa using hr
  simp [Atoi, h1, h2, h3, hd.1, hr1]

theorem wrapInt64_of_range (x : Int) (h0 : 0 ≤ x) (h1 : x < 2 ^ 63) : wrapInt64 x = x := by
  unfold wrapInt64
  rw [Int.emod_eq_of_lt (by omega) (by omega)]
  omega

/-! ## Claims on `getLicenseInfo` -/

/-- C3: on a license text that holds both "expired" and "permanent" the code returns
isPermanent = true (with isActive = false, expiresIn = 0 and no error), where the
claim promises isPermanent = false for every text with "expired". -/
theorem getLicenseInfo_expired_keeps_permanent :
    getLicenseInfo ⟨"License type: permanent (expired)".toList, none⟩ = ⟨true, false, 0, none⟩ := by
  decide

/-- C8: a license text that contains "permanent" and not "expired" gives isPermanent =
true, isActive = true, expiresIn = 9999999 and no error, whatever else it contains. -/
theorem getLicenseInfo_permanent (s : Text) (hperm : "permanent".toList <:+: s)
    (hexp : ¬ "expired".toList <:+: s) :
    getLicenseInfo ⟨s, none⟩ = ⟨true, true, 9999999, none⟩ := by
  have h1 : Contains s "expired".toList = false := Contains_eq_false s _ hexp
  have h2 : Contains s "permanent".toList = true := (Contains_iff s _).2 hperm
  simp only [getLicenseInfo, h1, h2]
  rfl

set_option maxRecDepth 100000 in
theorem getLicenseInfo_permanent_witness :
    "permanent".toList <:+: "License validity: permanent Expires: 3 day(s)".toList ∧
    getLicenseInfo ⟨"License validity: permanent Expires: 3 day(s)".toList, none⟩
      = ⟨true, true, 9999999, none⟩ :=
  ⟨by decide, getLicenseInfo_permanent _ (by decide) (by decide)⟩

/-- C6: for a license text without "expired" and "permanent", written with
"Expires: n month(s) m day(s)" or "Expires: n month m day", whose leftmost month-form
clause after the removal of "(s)" is "Expires: n month m day", with n*30 + m below 2^63,
getLicenseInfo returns isPermanent = false, isActive = true, expiresIn = n*30 + m and
no error. -/
theorem getLicenseInfo_month_form (s pre post n m : Text)
    (hexp : ¬ "expired".toList <:+: s) (hperm : ¬ "permanent".toList <:+: s)
    (hn : IsDigits n) (hm : IsDigits m)
    (hraw : ("Expires: ".toList ++ n ++ " month(s) ".toList ++ m ++ " day(s)".toList) <:+: s ∨
      monthClause n m <:+: s)
    (hstrip : Replace s "(s)".toList [] = pre ++ monthClause n m ++ post)
    (hleft : ∀ i, i < pre.length → ¬ MonthClauseAt ((pre ++ monthClause n m ++ post).drop i))
    (hrange : digitsVal n * 30 + digitsVal m < 2 ^ 63) :
    getLicenseInfo ⟨s, none⟩ =
      ⟨false, true, ((digitsVal n * 30 + digitsVal m : Nat) : Int), none⟩ := by
  have h1 : Contains s "expired".toList = false := Contains_eq_false s _ hexp
  have h2 : Contains s "permanent".toList = false := Contains_eq_false s _ hperm
  have h3 : Contains s "month".toList = true := by
    rw [Contains_iff]
    rcases hraw with h | h
    · refine List.IsInfix.trans ?_ h
      exact ⟨"Expires: ".toList ++ n ++ [' '], "(s) ".toList ++ m ++ " day(s)".toList, by simp⟩
    · refine List.IsInfix.trans ?_ h
      exact ⟨"Expires: ".toList ++ n ++ [' '], [' '] ++ m ++ " day".toList, by simp [monthClause]⟩
  have hn63 : digitsVal n < 2 ^ 63 := by omega
  have hm63 : digitsVal m < 2 ^ 63 := by omega
  have hw1 : wrapInt64 ((digitsVal n : Int) * 30) = (digitsVal n : Int) * 30 := by
    apply wrapInt64_of_range <;> omega
  have hw2 : wrapInt64 ((digitsVal n : Int) * 30 + (digitsVal m : Int)) =
      (digitsVal n : Int) * 30 + (digitsVal m : Int) := by
    apply wrapInt64_of_range <;> omega
  simp only [getLicenseInfo, h1, h2, h3, hstrip, FindStringSubmatch_monthRe pre post n m hn hm hleft,
    List.getD_cons_succ, List.getD_cons_zero, Atoi_digits n hn hn63, Atoi_digits m hm hm63,
    hw1, hw2]
  simp

set_option maxRecDepth 100000 in
theorem getLicenseInfo_month_form_witness :
    getLicenseInfo ⟨"License: Expires: 2 month(s) 15 day(s) left".toList, none⟩
      = ⟨false, true, 75, none⟩ :=
  getLicenseInfo_month_form "License: Expires: 2 month(s) 15 day(s) left".toList
    "License: ".toList " left".toList "2".toList "15".toList (by decide) (by decide)
    ⟨by decide, by decide⟩ ⟨by decide, by decide⟩ (Or.inl (by decide)) (by decide)
    (by
      intro i hi h
      obtain ⟨n, m, -, -, r, hr⟩ := h
      have hp : "Expires: ".toList <+:
          ("License: ".toList ++ monthClause "2".toList "15".toList ++ " left".toList).drop i :=
        ⟨n ++ " month ".toList ++ m ++ " day".toList ++ r, by rw [← hr]; simp [monthClause]⟩
      have hi9 : i < 9 := hi
      interval_cases i <;> revert hp <;> decide)
    (by decide)

/-- C7: for a license text without "expired", "permanent" and "month" whose leftmost
day-only clause after the removal of "(s)" is "Expires: n day", with n below 2^63,
getLicenseInfo returns isPermanent = false, isActive = true, expiresIn = n and no
error. -/
theorem getLicenseInfo_day_form (s pre post n : Text)
    (hexp : ¬ "expired".toList <:+: s) (hperm : ¬ "permanent".toList <:+: s)
    (hmonth : ¬ "month".toList <:+: s) (hn : IsDigits n)
    (hstrip : Replace s "(s)".toList [] = pre ++ dayClause n ++ post)
    (hleft : ∀ i, i < pre.length → ¬ DayClauseAt ((pre ++ dayClause n ++ post).drop i))
    (hrange : digitsVal n < 2 ^ 63) :
    getLicenseInfo ⟨s, none⟩ = ⟨false, true, (digitsVal n : Int), none⟩ := by
  have h1 : Contains s "expired".toList = false := Contains_eq_false s _ hexp
  have h2 : Contains s "permanent".toList = false := Contains_eq_false s _ hperm
  have h3 : Contains s "month".toList = false := Contains_eq_false s _ hmonth
  simp only [getLicenseInfo, h1, h2, h3, hstrip, FindStringSubmatch_dayRe pre post n hn hleft,
    List.getD_cons_succ, List.getD_cons_zero, Atoi_digits n hn hrange]
  simp

set_option maxRecDepth 100000 in
theorem getLicenseInfo_day_form_witness :
    getLicenseInfo ⟨"License: Expires: 10 day(s) left".toList, none⟩ = ⟨false, true, 10, none⟩ :=
  getLicenseInfo_day_form "License: Expires: 10 day(s) left".toList
    "License: ".toList " left".toList "10".toList (by decide) (by decide) (by decide)
    ⟨by decide, by decide⟩ (by decide)
    (by
      intro i hi h
      obtain ⟨n, -, r, hr⟩ := h
      have hp : "Expires: ".toList <+:
          ("License: ".toList ++ dayClause "10".toList ++ " left".toList).drop i :=
        ⟨n ++ " day".toList ++ r, by rw [← hr]; simp [dayClause]⟩
      have hi9 : i < 9 := hi
      interval_cases i <;> revert hp <;> decide)
    (by decide)

/-- C10: for a license text without "expired" and "permanent" in which, after the
removal of "(s)", neither "Expires: <digits> month <digits> day" nor
"Expires: <digits> day" occurs, getLicenseInfo returns an error together with
isPermanent = false, isActive = false, expiresIn = 0. -/
theorem getLicenseInfo_no_clause (s : Text)
    (hexp : ¬ "expired".toList <:+: s) (hperm : ¬ "permanent".toList <:+: s)
    (hmonth : ∀ n m, IsDigits n → IsDigits m →
      ¬ monthClause n m <:+: Replace s "(s)".toList [])
    (hday : ∀ n, IsDigits n → ¬ dayClause n <:+: Replace s "(s)".toList []) :
    getLicenseInfo ⟨s, none⟩ =
      ⟨false, false, 0,
        some (if Contains s "month".toList = true then GoError.expiryNotFound
          else GoError.expiryNotProcessed)⟩ := by
  have h1 : Contains s "expired".toList = false := Contains_eq_false s _ hexp
  have h2 : Contains s "permanent".toList = false := Contains_eq_false s _ hperm
  have hm : FindStringSubmatch monthRe (Replace s "(s)".toList []) = none := by
    apply FindStringSubmatch_none
    intro i _
    cases hmt : matchItems monthRe ((Replace s "(s)".toList []).drop i) with
    | none => rfl
    | some chunks =>
      obtain ⟨n, m, hn, hm, hp⟩ := monthClauseAt_of_match _ chunks hmt
      exact absurd (infix_of_drop _ _ i hp) (hmonth n m hn hm)
  have hd : FindStringSubmatch dayRe (Replace s "(s)".toList []) = none := by
    apply FindStringSubmatch_none
    intro i _
    cases hmt : matchItems dayRe ((Replace s "(s)".toList []).drop i) with
    | none => rfl
    | some chunks =>
      obtain ⟨n, hn, hp⟩ := dayClauseAt_of_match _ chunks hmt
      exact absurd (infix_of_drop _ _ i hp) (hday n hn)
  by_cases h3 : Contains s "month".toList = true
  · simp only [getLicenseInfo, h1, h2, h3, hm]
    simp
  · have h3f : Contains s "month".toList = false := by simpa using h3
    simp only [getLicenseInfo, h1, h2, h3f, hd]
    simp

set_option maxRecDepth 100000 in
theorem getLicenseInfo_no_clause_witness :
    getLicenseInfo ⟨"License: Expires: in 3 month(s)".toList, none⟩ =
      ⟨false, false, 0, some GoError.expiryNotFound⟩ :=
  getLicenseInfo_no_clause "License: Expires: in 3 month(s)".toList (by decide) (by decide)
    (by
      intro n m hn hm h
      obtain ⟨a, b, hab⟩ := h
      have h1 := findFrom_isSome_of_match_at monthRe a (monthClause n m ++ b) _
        (matchItems_monthRe_clause n m b hn hm)
      rw [← List.append_assoc, hab] at h1
      revert h1
      decide)
    (by
      intro n hn h
      obtain ⟨a, b, hab⟩ := h
      have h1 := findFrom_isSome_of_match_at dayRe a (dayClause n ++ b) _
        (matchItems_dayRe_clause n b hn)
      rw [← List.append_assoc, hab] at h1
      revert h1
      decide)

/-! ## `strconv.ParseFloat` on a decimal number `a.b` -/

theorem isDigit_toNat (c : Char) (h : isDigit c = true) : c.toNat - 48 ≤ 9 := by
  simp only [isDigit, Bool.and_eq_true, decide_eq_true_eq] at h
  have h2 : c.toNat ≤ 57 := h.2
  omega

theorem isDigit_not_special (c : Char) (h : isDigit c = true) : c ≠ '_' ∧ c ≠ '.' := by
  constructor <;> intro hc <;> rw [hc] at h <;> revert h <;> decide

theorem isSpace_not_digit (c : Char) (h : isSpace c = true) : isDigit c = false := by
  simp only [isSpace, Bool.or_eq_true, beq_iff_eq] at h
  rcases h with (((h | h) | h) | h) | h <;> rw [h] <;> decide

theorem isDigit_not_space (c : Char) (h : isDigit c = true) : isSpace c = false := by
  cases hs : isSpace c with
  | false => rfl
  | true => rw [isSpace_not_digit c hs] at h; cases h

theorem foldl_digits (ds : Text) (init : Nat) :
    ds.foldl (fun n c => 10 * n + (c.toNat - 48)) init = init * 10 ^ ds.length + digitsVal ds := by
  induction ds generalizing init with
  | nil => simp [digitsVal]
  | cons c cs ih =>
    have h1 := ih (10 * init + (c.toNat - 48))
    have h2 := ih (10 * 0 + (c.toNat - 48))
    simp only [List.foldl_cons, digitsVal, List.length_cons] at *
    rw [h1, h2]
    ring

theorem digitsVal_lt (ds : Text) (h : ∀ c ∈ ds, isDigit c = true) :
    digitsVal ds < 10 ^ ds.length := by
  induction ds with
  | nil => simp [digitsVal]
  | cons c cs ih =>
    have h1 := foldl_digits cs (10 * 0 + (c.toNat - 48))
    have h2 := isDigit_toNat c (h c (by simp))
    have h3 := ih (fun x hx => h x (List.mem_cons_of_mem _ hx))
    have h4 : digitsVal (c :: cs) = (10 * 0 + (c.toNat - 48)) * 10 ^ cs.length + digitsVal cs := h1
    rw [h4, List.length_cons, pow_succ]
    nlinarith [pow_pos (show 0 < 10 by norm_num) cs.length]

theorem readMantissa_digits (ds rest : Text) (m : Mantissa) (h : ∀ c ∈ ds, isDigit c = true) :
    readMantissa (ds ++ rest) m =
      readMantissa rest
        ⟨m.digits * 10 ^ ds.length + digitsVal ds,
          if m.sawdot = true then m.frac + ds.length else m.frac,
          m.sawdot, m.sawdigits || !ds.isEmpty, m.underscores⟩ := by
  induction ds generalizing m with
  | nil => simp [digitsVal]
  | cons c cs ih =>
    have hc : isDigit c = true := h c (by simp)
    obtain ⟨hc1, hc2⟩ := isDigit_not_special c hc
    have h1 := foldl_digits cs (10 * 0 + (c.toNat - 48))
    have h4 : digitsVal (c :: cs) = (10 * 0 + (c.toNat - 48)) * 10 ^ cs.length + digitsVal cs := h1
    rw [List.cons_append, readMantissa, if_neg hc1, if_neg hc2, if_pos hc,
      ih _ (fun x hx => h x (List.mem_cons_of_mem _ hx)), h4]
    congr 1
    cases hs : m.sawdot <;> simp [pow_succ]
    · ring
    · constructor
      · ring
      · omega

theorem readFloat_decimal (a b : Text) (ha : IsDigits a) (hb : IsDigits b) :
    readFloat (a ++ '.' :: b) =
      some (false, digitsVal a * 10 ^ b.length + digitsVal b, -(b.length : Int), []) := by
  have h1 : startsWith (a ++ '.' :: b) ['-'] = false := by
    obtain ⟨hne, hall⟩ := ha
    cases a with
    | nil => exact absurd rfl hne
    | cons c cs =>
      have hc : isDigit c = true := hall c (by simp)
      have : c ≠ '-' := by
        intro h; rw [h] at hc; revert hc; decide
      simp [startsWith, this]
  have h2 : startsWith (a ++ '.' :: b) ['+'] = false := by
    obtain ⟨hne, hall⟩ := ha
    cases a with
    | nil => exact absurd rfl hne
    | cons c cs =>
      have hc : isDigit c = true := hall c (by simp)
      have : c ≠ '+' := by
        intro h; rw [h] at hc; revert hc; decide
      simp [startsWith, this]
  have h3 : readMantissa (a ++ '.' :: b) ⟨0, 0, false, false, false⟩ =
      (⟨digitsVal a * 10 ^ b.length + digitsVal b, b.length, true, true, false⟩, []) := by
    rw [readMantissa_digits a _ _ ha.2]
    have hdot : ('.' : Char) ≠ '_' := by decide
    rw [readMantissa, if_neg hdot, if_pos rfl]
    have hb2 := readMantissa_digits b [] ⟨0 * 10 ^ a.length + digitsVal a, 0, true,
      (false || !a.isEmpty), false⟩ hb.2
    rw [List.append_nil] at hb2
    simp only [Bool.false_eq_true, if_false]
    rw [hb2]
    simp [readMantissa, ha.1]
  simp only [readFloat, h1, h2, Bool.or_self, Bool.false_eq_true, if_false, h3, readExponent]
  simp

theorem ParseFloat_decimal (a b : Text) (ha : IsDigits a) (hb : IsDigits b)
    (hla : a.length ≤ 15) :
    ParseFloat (a ++ '.' :: b) = .ok (decimalValue a b) := by
  have hva : digitsVal a < 10 ^ 15 :=
    lt_of_lt_of_le (digitsVal_lt a ha.2) (Nat.pow_le_pow_right (by norm_num) hla)
  have hvb := digitsVal_lt b hb.2
  have hpos : (0 : ℚ) < 10 ^ b.length := by positivity
  have hval : ((digitsVal a * 10 ^ b.length + digitsVal b : Nat) : ℚ) * 10 ^ (-(b.length : Int)) =
      decimalValue a b := by
    rw [zpow_neg, zpow_natCast, decimalValue]
    push_cast
    field_simp
  have hlt : decimalValue a b < float64Overflow := by
    have h1 : (digitsVal a : ℚ) < 10 ^ 15 := by exact_mod_cast hva
    have h2 : (digitsVal b : ℚ) / 10 ^ b.length < 1 := by
      rw [div_lt_one hpos]
      exact_mod_cast hvb
    have h3 : (10 : ℚ) ^ 15 + 1 ≤ float64Overflow := by
      norm_num [float64Overflow]
    rw [decimalValue]
    linarith
  simp only [ParseFloat, readFloat_decimal a b ha hb, ne_eq, not_true_eq_false, if_false, hval,
    not_le.2 hlt, Bool.false_eq_true]

/-! ## The version pattern -/

theorem plusLoop_last (p : Char → Bool) (cs : Text) (c : Char) (acc : Text) (hc : p c = true) :
    ∃ ds, plusLoop p (matchItems []) acc (c :: cs) = some [acc ++ ds] := by
  induction cs generalizing c acc with
  | nil => exact ⟨[c], by simp [plusLoop, hc, matchItems]⟩
  | cons d ds ih =>
    rw [plusLoop, if_pos hc]
    by_cases hd : p d = true
    · obtain ⟨x, hx⟩ := ih d (acc ++ [c]) hd
      exact ⟨c :: x, by rw [hx]; simp⟩
    · have hd2 : p d = false := by simpa using hd
      refine ⟨[c], ?_⟩
      rw [plusLoop_none_of_head p _ _ (d :: ds) (by simpa using hd2)]
      simp [matchItems]

theorem head_append_digits (a rest : Text) (q : Char → Bool) (ha : a ≠ [])
    (h : ∀ c ∈ a, q c = false) : ∀ c ∈ (a ++ rest).head?, q c = false := by
  cases a with
  | nil => exact absurd rfl ha
  | cons x xs =>
    intro c hc
    simp only [List.cons_append, List.head?_cons, Option.mem_def, Option.some.injEq] at hc
    rw [← hc]
    exact h x (by simp)

theorem versionRe_eq :
    versionRe = lit "CryptCP".toList 0 ++ (plus isSpace 0 :: plus isDigit 1 :: one isAnyChar 1 ::
      plus isDigit 1 :: plus isSpace 0 :: []) := rfl

theorem matchItems_versionRe (ws a b rest : Text) (w : Char) (hws : IsSpaces ws)
    (ha : IsDigits a) (hb : IsDigits b) (hw : isSpace w = true) :
    ∃ x, matchItems versionRe ("CryptCP".toList ++ ws ++ a ++ '.' :: b ++ w :: rest) =
      some ("CryptCP".toList.map (fun c => [c]) ++ (ws :: a :: ['.'] :: b :: [x])) := by
  obtain ⟨x, hx⟩ := plusLoop_last isSpace rest w [] hw
  refine ⟨x, ?_⟩
  have h5 : matchItems (plus isSpace 0 :: []) (w :: rest) = some [x] := by
    rw [matchItems_plus, hx]; rfl
  have h4 : matchItems (plus isDigit 1 :: plus isSpace 0 :: []) (b ++ w :: rest) =
      some (b :: [x]) :=
    matchItems_plus_greedy isDigit 1 _ b _ _ hb.1 hb.2
      (not_isDigit_head _ w (isSpace_not_digit w hw) rfl) h5
  have h3 : matchItems (one isAnyChar 1 :: plus isDigit 1 :: plus isSpace 0 :: [])
      ('.' :: (b ++ w :: rest)) = some (['.'] :: b :: [x]) := by
    rw [matchItems_one_cons, if_pos (by decide), h4]; rfl
  have h2 : matchItems (plus isDigit 1 :: one isAnyChar 1 :: plus isDigit 1 :: plus isSpace 0 :: [])
      (a ++ '.' :: (b ++ w :: rest)) = some (a :: ['.'] :: b :: [x]) :=
    matchItems_plus_greedy isDigit 1 _ a _ _ ha.1 ha.2
      (not_isDigit_head _ '.' (by decide) rfl) h3
  have h1 : matchItems (plus isSpace 0 :: plus isDigit 1 :: one isAnyChar 1 :: plus isDigit 1 ::
      plus isSpace 0 :: []) (ws ++ (a ++ '.' :: (b ++ w :: rest))) =
      some (ws :: a :: ['.'] :: b :: [x]) :=
    matchItems_plus_greedy isSpace 0 _ ws _ _ hws.1 hws.2
      (head_append_digits a _ isSpace ha.1 (fun c hc => isDigit_not_space c (ha.2 c hc))) h2
  have htx : "CryptCP".toList ++ ws ++ a ++ '.' :: b ++ w :: rest =
      "CryptCP".toList ++ (ws ++ (a ++ '.' :: (b ++ w :: rest))) := by
    simp
  rw [versionRe_eq, htx, matchItems_lit, h1]; rfl

theorem FindStringSubmatch_versionRe (ws a b rest : Text) (w : Char) (hws : IsSpaces ws)
    (ha : IsDigits a) (hb : IsDigits b) (hw : isSpace w = true) :
    ∃ full, FindStringSubmatch versionRe ("CryptCP".toList ++ ws ++ a ++ '.' :: b ++ w :: rest) =
      some [full, a ++ '.' :: b] := by
  obtain ⟨x, hx⟩ := matchItems_versionRe ws a b rest w hws ha hb hw
  have hng : numGroups versionRe = 1 := by decide
  refine ⟨("CryptCP".toList.map (fun c => [c]) ++ (ws :: a :: ['.'] :: b :: [x])).flatten, ?_⟩
  rw [FindStringSubmatch, findFrom_of_match _ _ _ hx, hng]
  simp only [Option.map_some', List.range_succ, List.range_zero, List.nil_append,
    List.map_cons, List.map_nil, Nat.zero_add]
  rw [versionRe_eq]
  simp only [groupText_lit, groupText_plus]
  simp [groupText, one, plus]

theorem FindStringSubmatch_versionRe_none (s : Text) (h : ¬ "CryptCP".toList <:+: s) :
    FindStringSubmatch versionRe s = none := by
  apply FindStringSubmatch_none
  intro i _
  cases hmt : matchItems versionRe (s.drop i) with
  | none => rfl
  | some chunks =>
    exfalso
    rw [versionRe_eq] at hmt
    obtain ⟨r1, c1, e1, -, -⟩ := matchItems_lit_some _ _ _ _ _ hmt
    exact h (infix_of_drop _ _ i ⟨r1, e1.symm⟩)

/-! ## Claims on `getVersion` -/

/-- C2: the text "CryptCP 500 ", whose number has no decimal point, is matched by the
pattern of the code, whose `.` is any character: getVersion returns 500 and no error,
where the claim says the parser fails. -/
theorem getVersion_without_point :
    getVersion ⟨"CryptCP 500 ".toList, none⟩ = (500, none) := by
  have h : FindStringSubmatch versionRe "CryptCP 500 ".toList
      = some ["CryptCP 500 ".toList, "500".toList] := by decide
  have h2 : readFloat "500".toList = some (false, 500, 0, []) := by decide
  simp only [getVersion, h, List.getD_cons_succ, List.getD_cons_zero, ParseFloat, h2]
  norm_num [float64Overflow]
  simp

/-- C4: when the command runner reports an error and the captured text is one the
parser accepts, getVersion returns the parsed version and a nil error, where the claim
says every extractor returns a non-nil error. -/
theorem getVersion_drops_runner_error :
    getVersion ⟨"CryptCP 5.0 ".toList, some (GoError.runner "exit status 1")⟩ = (5, none) := by
  have h : FindStringSubmatch versionRe "CryptCP 5.0 ".toList
      = some ["CryptCP 5.0 ".toList, "5.0".toList] := by decide
  have h2 : readFloat "5.0".toList = some (false, 50, -1, []) := by decide
  simp only [getVersion, h, List.getD_cons_succ, List.getD_cons_zero, ParseFloat, h2]
  norm_num [float64Overflow]
  simp

/-- C9: for a text that begins with "CryptCP", white space, digits a (at most 15), a
point, digits b and a white-space character, getVersion returns the number written a.b
and no error; for a text without "CryptCP" it returns 0 and the error that no version
number was found.  Both hold whatever the command runner reported. -/
theorem getVersion_decimal :
    (∀ (ws a b rest : Text) (w : Char) (e : Option GoError),
      IsSpaces ws → IsDigits a → a.length ≤ 15 → IsDigits b → b.length ≤ 15 →
      isSpace w = true →
      getVersion ⟨"CryptCP".toList ++ ws ++ a ++ '.' :: b ++ w :: rest, e⟩ =
        (decimalValue a b, none)) ∧
    (∀ (s : Text) (e : Option GoError), ¬ "CryptCP".toList <:+: s →
      getVersion ⟨s, e⟩ = (0, some (GoError.versionNotFound s))) := by
  constructor
  · intro ws a b rest w e hws ha hla hb _ hw
    obtain ⟨full, hf⟩ := FindStringSubmatch_versionRe ws a b rest w hws ha hb hw
    have hne : ¬ (a ++ '.' :: b = []) := by simp
    simp only [getVersion, hf, List.getD_cons_succ, List.getD_cons_zero,
      ParseFloat_decimal a b ha hb hla, hne]
    simp
  · intro s e h
    simp only [getVersion, FindStringSubmatch_versionRe_none s h]

set_option maxRecDepth 100000 in
theorem getVersion_decimal_witness :
    getVersion ⟨"CryptCP 5.0 (c) Crypto-Pro".toList, none⟩ = (5, none) ∧
    getVersion ⟨"no version here".toList, none⟩ =
      (0, some (GoError.versionNotFound "no version here".toList)) := by
  constructor
  · have h := getVersion_decimal.1 " ".toList "5".toList "0".toList "(c) Crypto-Pro".toList ' ' none
      ⟨by decide, by decide⟩ ⟨by decide, by decide⟩ (by decide) ⟨by decide, by decide⟩
      (by decide) (by decide)
    have h5 : digitsVal "5".toList = 5 := by decide
    have h0 : digitsVal "0".toList = 0 := by decide
    have hv : decimalValue "5".toList "0".toList = 5 := by
      rw [decimalValue, h5, h0]
      norm_num
    rw [hv] at h
    exact h
  · exact getVersion_decimal.2 "no version here".toList none (by decide)

/-! ## Claims on `GetUserCertsInfo` and on the collection loops -/

/-- C1: on a certmgr text with the two containers alice and bob and two dates,
GetUserCertsInfo returns one container name and one expiry value, those of the first
container, where the claim says it returns both pairs. -/
theorem GetUserCertsInfo_first_only (diffDaysFromNow : Text → ℚ) :
    GetUserCertsInfo diffDaysFromNow
      ⟨("HDIMAGE\\\\alice.000 Not valid after : 01/02/2030 " ++
        "HDIMAGE\\\\bob.000 Not valid after : 03/04/2031 ").toList, none⟩ =
      ⟨["alice".toList], [diffDaysFromNow "01/02/2030".toList], none⟩ := by
  have h1 : FindStringSubmatch containerRe
      ("HDIMAGE\\\\alice.000 Not valid after : 01/02/2030 " ++
        "HDIMAGE\\\\bob.000 Not valid after : 03/04/2031 ").toList =
      some ["HDIMAGE\\\\alice.000".toList, "alice".toList] := by decide
  have h2 : FindStringSubmatch dateRe
      ("HDIMAGE\\\\alice.000 Not valid after : 01/02/2030 " ++
        "HDIMAGE\\\\bob.000 Not valid after : 03/04/2031 ").toList =
      some ["Not valid after : 01/02/2030 ".toList, "01/02/2030".toList] := by decide
  simp only [GetUserCertsInfo, h1, h2]
  simp

/-- C5: a cycle of the license loop whose extraction fails leaves the counter
cryptopro_exporter_errors_license as it was and adds 1 to
cryptopro_exporter_errors_version (and to the total), where the claim says the license
loop adds 1 to its own counter and leaves the version counter unchanged. -/
theorem licenseCycle_failure_counters (boolToFloat64 : Bool → ℚ) (out : Text) (msg : String)
    (m : Metrics) :
    (licenseCycle boolToFloat64 ⟨out, some (GoError.runner msg)⟩ m).errorsLicense
      = m.errorsLicense ∧
    (licenseCycle boolToFloat64 ⟨out, some (GoError.runner msg)⟩ m).errorsVersion
      = m.errorsVersion + 1 ∧
    (licenseCycle boolToFloat64 ⟨out, some (GoError.runner msg)⟩ m).errorsTotal
      = m.errorsTotal + 1 := by
  simp [licenseCycle, getLicenseInfo]

/-- C11: on a certmgr text with a container name and no "Not valid after" date,
GetUserCertsInfo returns the error together with the container name it has found (and no
expiry value), where the claim says an error comes with no container names. -/
theorem GetUserCertsInfo_error_keeps_names (diffDaysFromNow : Text → ℚ) :
    GetUserCertsInfo diffDaysFromNow ⟨"Container: HDIMAGE\\\\alice.000 ".toList, none⟩ =
      ⟨["alice".toList], [], some GoError.validDateNotFound⟩ := by
  have h1 : FindStringSubmatch containerRe "Container: HDIMAGE\\\\alice.000 ".toList =
      some ["HDIMAGE\\\\alice.000".toList, "alice".toList] := by decide
  have h2 : FindStringSubmatch dateRe "Container: HDIMAGE\\\\alice.000 ".toList = none := by
    decide
  simp only [GetUserCertsInfo, h1, h2]
  simp

/-- C12: on a license text that holds both "permanent" and "expired" getLicenseInfo
returns no error and a tuple with isPermanent = true, isActive = false and expiresIn = 0,
which breaks the invariant that isPermanent = true implies isActive = true and
expiresIn = 9999999. -/
theorem getLicenseInfo_breaks_invariant :
    (getLicenseInfo ⟨"permanent license, expired".toList, none⟩).err = none ∧
    (getLicenseInfo ⟨"permanent license, expired".toList, none⟩).isPermanent = true ∧
    (getLicenseInfo ⟨"permanent license, expired".toList, none⟩).isActive = false ∧
    (getLicenseInfo ⟨"permanent license, expired".toList, none⟩).expiresIn = 0 := by
  decide

/-- C15: on a certmgr text with a container name and no "Not valid after" date, the
cycle of the user-certificates loop reads expireIn[0] of an empty slice and panics,
where the claim says every index of the names is a valid index of the expiry values. -/
theorem certsCycle_panics (diffDaysFromNow : Text → ℚ) (m : Metrics) :
    (GetUserCertsInfo diffDaysFromNow
      ⟨"Container: HDIMAGE\\\\bob.000 ".toList, none⟩).containerNames.length = 1 ∧
    (GetUserCertsInfo diffDaysFromNow
      ⟨"Container: HDIMAGE\\\\bob.000 ".toList, none⟩).expireIn.length = 0 ∧
    certsCycle diffDaysFromNow ⟨"Container: HDIMAGE\\\\bob.000 ".toList, none⟩ m = none := by
  have h1 : FindStringSubmatch containerRe "Container: HDIMAGE\\\\bob.000 ".toList =
      some ["HDIMAGE\\\\bob.000".toList, "bob".toList] := by decide
  have h2 : FindStringSubmatch dateRe "Container: HDIMAGE\\\\bob.000 ".toList = none := by
    decide
  have h3 : GetUserCertsInfo diffDaysFromNow ⟨"Container: HDIMAGE\\\\bob.000 ".toList, none⟩ =
      ⟨["bob".toList], [], some GoError.validDateNotFound⟩ := by
    simp only [GetUserCertsInfo, h1, h2]
    simp
  refine ⟨by rw [h3]; rfl, by rw [h3]; rfl, ?_⟩
  simp only [certsCycle, h3, publishCerts]
  simp

/-! ## What a match of the version pattern looks like -/

theorem matchItems_one_some (p : Char → Bool) (g : Nat) (r : List Item) (s : Text)
    (chunks : List Text) (h : matchItems (one p g :: r) s = some chunks) :
    ∃ c cs chs, s = c :: cs ∧ p c = true ∧ matchItems r cs = some chs ∧ chunks = [c] :: chs := by
  cases s with
  | nil => simp [matchItems, one] at h
  | cons c cs =>
    rw [matchItems_one_cons] at h
    by_cases hp : p c = true
    · rw [if_pos hp] at h
      cases hrec : matchItems r cs with
      | none => rw [hrec] at h; simp at h
      | some chs =>
        rw [hrec] at h
        simp only [Option.map_some', Option.some.injEq] at h
        exact ⟨c, cs, chs, rfl, hp, hrec, h.symm⟩
    · rw [if_neg hp] at h
      cases h

theorem matchItems_versionRe_some (t : Text) (chunks : List Text)
    (h : matchItems versionRe t = some chunks) :
    ∃ sp d1 c d2 sp2 rest, IsSpaces sp ∧ IsDigits d1 ∧ isAnyChar c = true ∧ IsDigits d2 ∧
      IsSpaces sp2 ∧ t = "CryptCP".toList ++ sp ++ d1 ++ c :: d2 ++ sp2 ++ rest ∧
      chunks = "CryptCP".toList.map (fun x => [x]) ++ (sp :: d1 :: [c] :: d2 :: [sp2]) := by
  rw [versionRe_eq] at h
  obtain ⟨r1, c1, e1, h1, k1⟩ := matchItems_lit_some _ _ _ _ _ h
  obtain ⟨sp, r2, c2, hs1, hs2, e2, h2, k2⟩ := matchItems_plus_some _ _ _ _ _ h1
  obtain ⟨d1, r3, c3, hd1, hd2, e3, h3, k3⟩ := matchItems_plus_some _ _ _ _ _ h2
  obtain ⟨c, r4, c4, e4, hc, h4, k4⟩ := matchItems_one_some _ _ _ _ _ h3
  obtain ⟨d2, r5, c5, hf1, hf2, e5, h5, k5⟩ := matchItems_plus_some _ _ _ _ _ h4
  obtain ⟨sp2, r6, c6, ht1, ht2, e6, h6, k6⟩ := matchItems_plus_some _ _ _ _ _ h5
  have hc6 : c6 = [] := by
    simp only [matchItems, Option.some.injEq] at h6
    exact h6.symm
  refine ⟨sp, d1, c, d2, sp2, r6, ⟨hs1, hs2⟩, ⟨hd1, hd2⟩, hc, ⟨hf1, hf2⟩, ⟨ht1, ht2⟩, ?_, ?_⟩
  · rw [e1, e2, e3, e4, e5, e6]
    simp
  · rw [k1, k2, k3, k4, k5, k6, hc6]

theorem FindStringSubmatch_versionRe_some (s : Text) (ms : List Text)
    (h : FindStringSubmatch versionRe s = some ms) :
    ∃ i sp d1 c d2 sp2 rest full, IsSpaces sp ∧ IsDigits d1 ∧ isAnyChar c = true ∧ IsDigits d2 ∧
      IsSpaces sp2 ∧ s.drop i = "CryptCP".toList ++ sp ++ d1 ++ c :: d2 ++ sp2 ++ rest ∧
      ms = [full, d1 ++ c :: d2] := by
  rw [FindStringSubmatch] at h
  cases hf : findFrom versionRe s with
  | none => rw [hf] at h; cases h
  | some chunks =>
    rw [hf] at h
    obtain ⟨i, -, hm⟩ := findFrom_some versionRe s chunks hf
    obtain ⟨sp, d1, c, d2, sp2, rest, h1, h2, h3, h4, h5, h6, h7⟩ :=
      matchItems_versionRe_some _ chunks hm
    have hng : numGroups versionRe = 1 := by decide
    refine ⟨i, sp, d1, c, d2, sp2, rest, chunks.flatten, h1, h2, h3, h4, h5, h6, ?_⟩
    simp only [Option.map_some', Option.some.injEq, hng, List.range_succ, List.range_zero,
      List.nil_append, List.map_cons, List.map_nil, Nat.zero_add] at h
    rw [← h, h7, versionRe_eq]
    simp only [groupText_lit, groupText_plus]
    simp [groupText, one, plus]

theorem startsWith_digits_append_false (ds rest : Text) (x : Char) (hd : IsDigits ds)
    (hx : isDigit x = false) : startsWith (ds ++ rest) [x] = false := by
  obtain ⟨hne, hall⟩ := hd
  cases ds with
  | nil => exact absurd rfl hne
  | cons c cs =>
    have hc : isDigit c = true := hall c (by simp)
    have : c ≠ x := by
      intro h
      rw [h, hx] at hc
      cases hc
    simp [startsWith, this]

theorem readFloat_sign (t : Text) (neg : Bool) (mant : Nat) (exp : Int) (rest : Text)
    (h : readFloat t = some (neg, mant, exp, rest)) : neg = startsWith t ['-'] := by
  unfold readFloat at h
  simp only at h
  generalize readMantissa _ _ = m at h
  by_cases hsd : m.1.sawdigits = false
  · simp [hsd] at h
  · simp only [hsd, if_false] at h
    cases hre : readExponent m.2 with
    | none => simp [hre] at h
    | some r =>
      obtain ⟨e, u, rest1⟩ := r
      simp only [hre] at h
      split_ifs at h
      all_goals
        simp only [Option.some.injEq, Prod.mk.injEq] at h
        exact h.1.symm

theorem ParseFloat_nonneg (t : Text) (v : ℚ) (hs : startsWith t ['-'] = false)
    (h : ParseFloat t = .ok v) : 0 ≤ v := by
  unfold ParseFloat at h
  cases hr : readFloat t with
  | none => rw [hr] at h; cases h
  | some r =>
    obtain ⟨neg, mant, exp, rest⟩ := r
    have hneg : neg = false := by rw [readFloat_sign t neg mant exp rest hr, hs]
    rw [hr] at h
    simp only at h
    split at h
    · cases h
    · split at h
      · cases h
      · rw [hneg] at h
        simp only [Bool.false_eq_true, if_false, Except.ok.injEq] at h
        rw [← h]
        positivity

/-! ## Further claims on `getVersion` -/

/-- C14 (as stated, refuted): on the text "CryptCP 0.0 " getVersion returns no error and
a version that is not strictly positive. -/
theorem getVersion_zero :
    (getVersion ⟨"CryptCP 0.0 ".toList, none⟩).2 = none ∧
    ¬ (0 < (getVersion ⟨"CryptCP 0.0 ".toList, none⟩).1) := by
  have h : FindStringSubmatch versionRe "CryptCP 0.0 ".toList
      = some ["CryptCP 0.0 ".toList, "0.0".toList] := by decide
  have h2 : readFloat "0.0".toList = some (false, 0, -1, []) := by decide
  have h3 : getVersion ⟨"CryptCP 0.0 ".toList, none⟩ = (0, none) := by
    simp only [getVersion, h, List.getD_cons_succ, List.getD_cons_zero, ParseFloat, h2]
    norm_num [float64Overflow]
    simp
  rw [h3]
  simp

/-- C14 (amended): every version that getVersion returns without an error is a
non-negative number. -/
theorem getVersion_nonneg (run : RunResult) (v : ℚ) (h : getVersion run = (v, none)) :
    0 ≤ v := by
  unfold getVersion at h
  cases hf : FindStringSubmatch versionRe run.out with
  | none => rw [hf] at h; simp at h
  | some ms =>
    obtain ⟨i, sp, d1, c, d2, sp2, rest, full, -, hd1, -, -, -, -, hms⟩ :=
      FindStringSubmatch_versionRe_some _ ms hf
    rw [hf] at h
    simp only at h
    split at h
    · simp at h
    · cases hp : ParseFloat (ms.getD 1 []) with
      | error e => rw [hp] at h; simp at h
      | ok version =>
        rw [hp] at h
        simp only [Prod.mk.injEq, and_true] at h
        rw [← h]
        apply ParseFloat_nonneg _ _ _ hp
        rw [hms]
        exact startsWith_digits_append_false d1 _ '-' hd1 (by decide)

theorem getVersion_nonneg_witness :
    getVersion ⟨"CryptCP 4.0 ".toList, none⟩ = (4, none) ∧ (0 : ℚ) ≤ 4 := by
  have h : FindStringSubmatch versionRe "CryptCP 4.0 ".toList
      = some ["CryptCP 4.0 ".toList, "4.0".toList] := by decide
  have h2 : readFloat "4.0".toList = some (false, 40, -1, []) := by decide
  have h3 : getVersion ⟨"CryptCP 4.0 ".toList, none⟩ = (4, none) := by
    simp only [getVersion, h, List.getD_cons_succ, List.getD_cons_zero, ParseFloat, h2]
    norm_num [float64Overflow]
    simp
  exact ⟨h3, getVersion_nonneg _ _ h3⟩

theorem no_space_after_digit (X Y A B : Text) (d w : Char)
    (hX : ∀ c ∈ X, isDigit c = false) (hY : ∀ c ∈ Y, isSpace c = false)
    (h : X ++ Y = A ++ d :: w :: B) (hd : isDigit d = true) (hw : isSpace w = true) : False := by
  have h2 : X ++ Y = (A ++ [d]) ++ (w :: B) := by rw [h]; simp
  rcases List.append_eq_append_iff.1 h2 with ⟨a1, h3, h4⟩ | ⟨c1, h3, h4⟩
  · have : w ∈ Y := by rw [h4]; simp
    rw [hY w this] at hw
    cases hw
  · have : d ∈ X := by rw [h3]; simp
    rw [hX d this] at hd
    cases hd

theorem FindStringSubmatch_versionRe_no_tail (ws a b : Text) (hws : IsSpaces ws)
    (ha : IsDigits a) (hb : IsDigits b) :
    FindStringSubmatch versionRe ("CryptCP".toList ++ ws ++ a ++ '.' :: b) = none := by
  cases hf : FindStringSubmatch versionRe ("CryptCP".toList ++ ws ++ a ++ '.' :: b) with
  | none => rfl
  | some ms =>
    exfalso
    obtain ⟨i, sp, d1, c, d2, sp2, rest, full, -, -, -, hd2, hsp2, hdrop, -⟩ :=
      FindStringSubmatch_versionRe_some _ ms hf
    obtain ⟨hd2ne, hd2all⟩ := hd2
    obtain ⟨hsp2ne, hsp2all⟩ := hsp2
    cases sp2 with
    | nil => exact hsp2ne rfl
    | cons w sp3 =>
      have hw : isSpace w = true := hsp2all w (by simp)
      have hlast : isDigit (d2.getLast hd2ne) = true := hd2all _ (List.getLast_mem hd2ne)
      have hsplit : d2 = d2.dropLast ++ [d2.getLast hd2ne] :=
        (List.dropLast_append_getLast hd2ne).symm
      have hT : ("CryptCP".toList ++ ws) ++ (a ++ '.' :: b) =
          "CryptCP".toList ++ ws ++ a ++ '.' :: b := by simp
      have h1 : "CryptCP".toList ++ ws ++ a ++ '.' :: b =
          ("CryptCP".toList ++ ws ++ a ++ '.' :: b).take i ++
            ("CryptCP".toList ++ sp ++ d1 ++ c :: d2 ++ w :: sp3 ++ rest) := by
        rw [← hdrop]
        exact (List.take_append_drop i _).symm
      have h2 : ∀ pre : Text,
          pre ++ ("CryptCP".toList ++ sp ++ d1 ++ c :: d2 ++ w :: sp3 ++ rest) =
          (pre ++ "CryptCP".toList ++ sp ++ d1 ++ c :: d2.dropLast) ++
            d2.getLast hd2ne :: w :: (sp3 ++ rest) := by
        intro pre
        conv_lhs => rw [hsplit]
        simp
      have htext := hT.trans (h1.trans (h2 _))
      refine no_space_after_digit _ _ _ _ _ w ?_ ?_ htext hlast hw
      · intro x hx
        rcases List.mem_append.1 hx with hx | hx
        · exact (by decide : ∀ y ∈ "CryptCP".toList, isDigit y = false) x hx
        · exact isSpace_not_digit x (hws.2 x hx)
      · intro x hx
        rcases List.mem_append.1 hx with hx | hx
        · exact isDigit_not_space x (ha.2 x hx)
        · rcases List.mem_cons.1 hx with hx | hx
          · rw [hx]; decide
          · exact isDigit_not_space x (hb.2 x hx)

/-- C16: for non-empty digit strings a and b, the text "CryptCP", white space, a.b that
ends right after the number gives version 0 and the error that no version number was
found, whatever the command runner reported. -/
theorem getVersion_needs_trailing_space (ws a b : Text) (e : Option GoError)
    (hws : IsSpaces ws) (ha : IsDigits a) (hb : IsDigits b) :
    getVersion ⟨"CryptCP".toList ++ ws ++ a ++ '.' :: b, e⟩ =
      (0, some (GoError.versionNotFound ("CryptCP".toList ++ ws ++ a ++ '.' :: b))) := by
  simp only [getVersion, FindStringSubmatch_versionRe_no_tail ws a b hws ha hb]

theorem getVersion_needs_trailing_space_witness :
    getVersion ⟨"CryptCP 5.0".toList, none⟩ =
      (0, some (GoError.versionNotFound "CryptCP 5.0".toList)) :=
  getVersion_needs_trailing_space " ".toList "5".toList "0".toList none
    ⟨by decide, by decide⟩ ⟨by decide, by decide⟩ ⟨by decide, by decide⟩

/-! ## The choice between the two forms of the expiry clause -/

theorem FindStringSubmatch_monthRe_none (t : Text)
    (h : ∀ n m, IsDigits n → IsDigits m → ¬ monthClause n m <:+: t) :
    FindStringSubmatch monthRe t = none := by
  apply FindStringSubmatch_none
  intro i _
  cases hmt : matchItems monthRe (t.drop i) with
  | none => rfl
  | some chunks =>
    obtain ⟨n, m, hn, hm, hp⟩ := monthClauseAt_of_match _ chunks hmt
    exact absurd (infix_of_drop _ _ i hp) (h n m hn hm)

/-- C13 (as stated, refuted): the text "Expires: 10 day(s), billed per month" has neither
"expired" nor "permanent", after the removal of "(s)" it begins with the day-only clause
"Expires: 10 day" and holds no month-form clause, and getLicenseInfo returns an error
with the neutral tuple instead of isActive = true and expiresIn = 10. -/
theorem getLicenseInfo_month_elsewhere :
    Replace "Expires: 10 day(s), billed per month".toList "(s)".toList [] =
      dayClause "10".toList ++ ", billed per month".toList ∧
    FindStringSubmatch monthRe
      (Replace "Expires: 10 day(s), billed per month".toList "(s)".toList []) = none ∧
    getLicenseInfo ⟨"Expires: 10 day(s), billed per month".toList, none⟩ =
      ⟨false, false, 0, some GoError.expiryNotFound⟩ := by
  decide

/-- C13 (amended): for a license text without "expired" and "permanent", getLicenseInfo
chooses the form by the substring "month" of the raw text.  When the text holds "month"
and, after the removal of "(s)", no month-form clause occurs, it returns the error
"failed to find expiry info" with the neutral tuple, whether or not a day-only clause
occurs; when the text does not hold "month" and the leftmost day-only clause after the
removal is "Expires: n day" with n below 2^63, it returns isPermanent = false,
isActive = true, expiresIn = n and no error. -/
theorem getLicenseInfo_form_by_month (s : Text)
    (hexp : ¬ "expired".toList <:+: s) (hperm : ¬ "permanent".toList <:+: s) :
    ("month".toList <:+: s →
      (∀ n m, IsDigits n → IsDigits m → ¬ monthClause n m <:+: Replace s "(s)".toList []) →
      getLicenseInfo ⟨s, none⟩ = ⟨false, false, 0, some GoError.expiryNotFound⟩) ∧
    (¬ "month".toList <:+: s → ∀ pre post n : Text, IsDigits n →
      Replace s "(s)".toList [] = pre ++ dayClause n ++ post →
      (∀ i, i < pre.length → ¬ DayClauseAt ((pre ++ dayClause n ++ post).drop i)) →
      digitsVal n < 2 ^ 63 →
      getLicenseInfo ⟨s, none⟩ = ⟨false, true, (digitsVal n : Int), none⟩) := by
  have h1 : Contains s "expired".toList = false := Contains_eq_false s _ hexp
  have h2 : Contains s "permanent".toList = false := Contains_eq_false s _ hperm
  constructor
  · intro hmonth hno
    have h3 : Contains s "month".toList = true := (Contains_iff s _).2 hmonth
    simp only [getLicenseInfo, h1, h2, h3, FindStringSubmatch_monthRe_none _ hno]
    simp
  · intro hmonth pre post n hn hstrip hleft hrange
    have h3 : Contains s "month".toList = false := Contains_eq_false s _ hmonth
    simp only [getLicenseInfo, h1, h2, h3, hstrip, FindStringSubmatch_dayRe pre post n hn hleft,
      List.getD_cons_succ, List.getD_cons_zero, Atoi_digits n hn hrange]
    simp

set_option maxRecDepth 100000 in
theorem getLicenseInfo_form_by_month_witness :
    getLicenseInfo ⟨"Expires: 7 day(s) of this month".toList, none⟩ =
      ⟨false, false, 0, some GoError.expiryNotFound⟩ ∧
    getLicenseInfo ⟨"Expires: 7 day(s) of this year".toList, none⟩ = ⟨false, true, 7, none⟩ := by
  constructor
  · refine (getLicenseInfo_form_by_month "Expires: 7 day(s) of this month".toList
      (by decide) (by decide)).1 (by decide) ?_
    intro n m hn hm h
    obtain ⟨a, b, hab⟩ := h
    have h1 := findFrom_isSome_of_match_at monthRe a (monthClause n m ++ b) _
      (matchItems_monthRe_clause n m b hn hm)
    rw [← List.append_assoc, hab] at h1
    revert h1
    decide
  · exact (getLicenseInfo_form_by_month "Expires: 7 day(s) of this year".toList
      (by decide) (by decide)).2 (by decide) [] " of this year".toList "7".toList
      ⟨by decide, by decide⟩ (by decide) (fun i hi => absurd hi (by simp)) (by decide)

end CryptoproExporter
